import Mathlib

/-!
Verification of the Yandex Music collection pipeline
(`scripts/collect_yandex_music_data.py`) against its specification.

The data model and every operation below are shallow embeddings of the
Python source: duck-typed optional attributes become `Option` fields,
exceptions raised by remote collaborators become `Except` values handed
to the pipeline, and the filesystem effect of the audio fetcher is the
optional size of the file left at the destination.
-/

/-- One artist of a track; `genres` is `none` when the attribute is absent
or `None`, `some []` when the list is present but empty (falsy). -/
structure Artist where
  name : String
  genres : Option (List String)
deriving DecidableEq

/-- One album of a track; optional `genre` and `cover_uri` mirror the
defensively accessed attributes. -/
structure Album where
  title : String
  genre : Option String
  cover_uri : Option String
deriving DecidableEq

/-- Full remote track representation as read by the collector. -/
structure Track where
  id : String
  title : String
  artists : List Artist
  albums : List Album
  cover_uri : Option String
  duration_ms : Option Nat
  available : Option Bool
deriving DecidableEq

/-- One media candidate returned by `track.get_download_info`. -/
structure DownloadInfo where
  codec : String
  bitrate_in_kbps : Nat
  direct_link : String
deriving DecidableEq

/-- Errors the remote media resolver can raise: the domain-specific
`YandexMusicError` or any unexpected exception. -/
inductive ResolveError where
  | yandexMusicError
  | unexpectedError
deriving DecidableEq

/-- Genre fallback through the first album, from the second half of
`extract_genre`: first album's `genre` attribute if present and truthy,
else the literal `"unknown"`. -/
def album_genre_fallback (t : Track) : String :=
  match t.albums with
  | al :: _ =>
    match al.genre with
    | some g => if g = "" then "unknown" else g
    | none => "unknown"
  | [] => "unknown"

/-- `extract_genre`: first artist's first genre tag when the genre list is
present and non-empty, otherwise the album fallback. -/
def extract_genre (t : Track) : String :=
  match t.artists with
  | a :: _ =>
    match a.genres with
    | some (g :: _) => g
    | some [] => album_genre_fallback t
    | none => album_genre_fallback t
  | [] => album_genre_fallback t

/-- Left-to-right, non-overlapping replacement of the substring `"%%"` by
`"400x400"`, the specialisation of Python's `uri.replace('%%', '400x400')`. -/
def replaceDoublePct : List Char → List Char
  | [] => []
  | [c] => [c]
  | c₁ :: c₂ :: rest =>
    if c₁ = '%' ∧ c₂ = '%' then String.toList "400x400" ++ replaceDoublePct rest
    else c₁ :: replaceDoublePct (c₂ :: rest)

/-- Builds the cover URL from a raw cover reference:
`f"https://{uri.replace('%%', '400x400')}"`. -/
def cover_url_of_ref (u : String) : String :=
  "https://" ++ String.mk (replaceDoublePct u.toList)

/-- Cover fallback through the first album in `get_cover_url`. -/
def album_cover_url (t : Track) : Option String :=
  match t.albums with
  | al :: _ =>
    match al.cover_uri with
    | some u => if u = "" then none else some (cover_url_of_ref u)
    | none => none
  | [] => none

/-- `get_cover_url`: the track-level cover reference when truthy, else the
first album's cover reference when truthy, else `none`. -/
def get_cover_url (t : Track) : Option String :=
  match t.cover_uri with
  | some u => if u = "" then album_cover_url t else some (cover_url_of_ref u)
  | none => album_cover_url t

/-- One step of the best-quality scan in `get_download_url`: keep the
current best unless the candidate is an mp3 that strictly improves it. -/
def pickBetter (best : Option DownloadInfo) (info : DownloadInfo) : Option DownloadInfo :=
  if info.codec = "mp3" then
    match best with
    | none => some info
    | some b => if info.bitrate_in_kbps > b.bitrate_in_kbps then some info else some b
  else best

/-- The loop of `get_download_url` over the candidate list. -/
def bestMp3 (infos : List DownloadInfo) : Option DownloadInfo :=
  infos.foldl pickBetter none

/-- `get_download_url` on the outcome of `track.get_download_info`: any
raised error yields no URL; otherwise the best mp3's direct link. -/
def get_download_url (res : Except ResolveError (List DownloadInfo)) : Option String :=
  match res with
  | Except.error _ => none
  | Except.ok infos => (bestMp3 infos).map DownloadInfo.direct_link

/-- The forbidden filename characters of `sanitize_filename`. -/
def invalid_chars : List Char := ['<', '>', ':', '"', '/', '\\', '|', '?', '*']

/-- Python's `filename.replace(char, '_')` on the character level. -/
def replaceChar (c : Char) (l : List Char) : List Char :=
  l.map (fun x => if x = c then '_' else x)

/-- The replacement loop of `sanitize_filename` over all forbidden characters. -/
def replaceInvalid (l : List Char) : List Char :=
  invalid_chars.foldl (fun s c => replaceChar c s) l

/-- Membership test for the strip set of `filename.strip('. ')`. -/
def isDotSpace (c : Char) : Bool := c = '.' || c = ' '

/-- Python's `filename.strip('. ')`: drop characters of the set from both ends. -/
def stripDotSpace (l : List Char) : List Char :=
  ((l.dropWhile isDotSpace).reverse.dropWhile isDotSpace).reverse

/-- `sanitize_filename`: replace forbidden characters, strip dots and
spaces, then truncate to 100 characters. -/
def sanitize_filename (filename : String) : String :=
  let l := stripDotSpace (replaceInvalid filename.toList)
  String.mk (if l.length > 100 then l.take 100 else l)

/-- Outcome of the streamed HTTP GET in `download_track`.  Because the
request uses `stream=True`, the body is read lazily inside the write
loop, so three things can happen: the request or `raise_for_status`
raises before the file is opened (`transportFailure`); the body raises
mid-stream (timeout or connection failure in `iter_content`) after the
listed chunks were already written (`streamRaises`); or the complete
body arrives (`stream`). -/
inductive TransportResult where
  | transportFailure
  | streamRaises (written : List (List Nat))
  | stream (chunks : List (List Nat))

/-- Bytes written by the chunk loop of `download_track` (`if chunk:`
skips empty chunks). -/
def writtenBytes (chunks : List (List Nat)) : List Nat :=
  chunks.foldl (fun acc ch => if ch.isEmpty then acc else acc ++ ch) []

/-- `download_track`, with the filesystem effect on the destination made
explicit: the result is the returned boolean together with the file left
at the destination path (`some size`) or its absence (`none`); `dest` is
the prior content of the destination, untouched when the request raises
before the file is opened.  A mid-stream failure jumps from the write
loop to the except handlers, which return `False` without reaching the
size check or `os.remove`, so the partially written file (created and
truncated by `open(output_path, 'wb')`) stays at the destination. -/
def download_track (resp : TransportResult) (dest : Option Nat) : Bool × Option Nat :=
  match resp with
  | TransportResult.transportFailure => (false, dest)
  | TransportResult.streamRaises written => (false, some ((writtenBytes written).length))
  | TransportResult.stream chunks =>
    let file_size := (writtenBytes chunks).length
    if file_size < 1024 then (false, none) else (true, some file_size)

/-- The per-track output record built by `process_track`. -/
structure TrackData where
  id : String
  title : String
  artist : String
  album : String
  duration : Nat
  genre : String
  cover_url : Option String
  available : Bool
deriving DecidableEq

/-- The audio filename `f"{track_data['id']}.mp3"` used by `process_track`. -/
def audio_filename (td_id : String) : String := td_id ++ ".mp3"

/-- `os.path.join` as used for the audio destination. -/
def path_join (dir name : String) : String := dir ++ "/" ++ name

/-- Destination path of a track's audio file. -/
def track_audio_path (audio_dir td_id : String) : String :=
  path_join audio_dir (audio_filename td_id)

/-- The metadata block of `process_track` before any download handling. -/
def base_record (t : Track) : TrackData :=
  { id := t.id
    title := t.title
    artist := match t.artists with | a :: _ => a.name | [] => "Unknown Artist"
    album := match t.albums with | al :: _ => al.title | [] => "Unknown Album"
    duration := match t.duration_ms with | some d => if d ≠ 0 then d / 1000 else 0 | none => 0
    genre := extract_genre t
    cover_url := get_cover_url t
    available := t.available.getD true }

/-- The remote collaborators consumed by the pipeline: media-candidate
resolution (may raise), the audio fetch outcome per URL and destination
path, and the per-reference full-track metadata fetch (may raise). -/
structure Env where
  download_info : Track → Except ResolveError (List DownloadInfo)
  fetch : String → String → Bool
  fetchFull : String → Except Unit Track

/-- `process_track`: build the metadata record, then, when downloads are
enabled and the record is available, resolve a download URL and fetch it;
the availability flag is downgraded when resolution or fetch fails. -/
def process_track (env : Env) (t : Track) (audio_dir : String) (download_audio : Bool) :
    Option TrackData :=
  let td := base_record t
  if download_audio && td.available then
    match get_download_url (env.download_info t) with
    | some url =>
      if env.fetch url (track_audio_path audio_dir td.id) then some td
      else some { td with available := false }
    | none => some { td with available := false }
  else some td

/-- One iteration of the orchestrator loop of `collect_liked_tracks`:
fetch the full track (a raised exception skips the iteration), process
it, and append the produced record to the accumulation list. -/
def orchestrator_step (env : Env) (audio_dir : String) (download_audio : Bool)
    (acc : List TrackData) (ref : String) : List TrackData :=
  match env.fetchFull ref with
  | Except.error _ => acc
  | Except.ok t =>
    match process_track env t audio_dir download_audio with
    | some td => acc ++ [td]
    | none => acc

/-- The orchestrator loop over the enumerated liked-track references. -/
def collect_loop (env : Env) (audio_dir : String) (download_audio : Bool)
    (refs : List String) : List TrackData :=
  refs.foldl (orchestrator_step env audio_dir download_audio) []

/-- The enumeration result `client.users_likes_tracks()`: absent (falsy)
or a wrapper holding the list of references. -/
structure TracksList where
  tracks : List String
deriving DecidableEq

/-- `collect_liked_tracks` after a successful connection: an absent or
empty enumeration returns the empty list before any layout is created;
otherwise the orchestrator loop runs. -/
def collect_liked_tracks (env : Env) (liked : Option TracksList)
    (audio_dir : String) (download_audio : Bool) : List TrackData :=
  match liked with
  | none => []
  | some tl => if tl.tracks.isEmpty then [] else collect_loop env audio_dir download_audio tl.tracks

/-- The persisted manifest: metadata block plus the record sequence. -/
structure ArchiveManifest where
  total_tracks : Nat
  tracks : List TrackData
deriving DecidableEq

/-- Outcome of `main` after collection: with no collected records it
exits fatally before the manifest write; otherwise it writes the
manifest with `total_tracks` computed from the record count. -/
inductive RunOutcome where
  | fatalNoTracks
  | wroteManifest (m : ArchiveManifest)
deriving DecidableEq

/-- The tail of `main`: `if not tracks_data: sys.exit(1)` else write
`metadata.json`. -/
def main_after_collect (tracks_data : List TrackData) : RunOutcome :=
  if tracks_data.isEmpty then RunOutcome.fatalNoTracks
  else RunOutcome.wroteManifest ⟨tracks_data.length, tracks_data⟩

/-- C8: when the enumeration of liked-track references is absent or
empty, the run reports zero collected tracks and the manifest write step
is never invoked. -/
theorem collect_empty_no_manifest (env : Env) (dir : String) (dl : Bool) :
    collect_liked_tracks env none dir dl = []
    ∧ collect_liked_tracks env (some ⟨[]⟩) dir dl = []
    ∧ main_after_collect [] = RunOutcome.fatalNoTracks := by
  refine ⟨rfl, ?_, rfl⟩
  simp [collect_liked_tracks]

/-! ### Lemmas about `sanitize_filename` -/

theorem mem_replaceChar {b : Char} {c : Char} {l : List Char} (h : b ∈ replaceChar c l) :
    b ∈ l ∨ b = '_' := by
  rcases List.mem_map.mp h with ⟨x, hx, hxe⟩
  by_cases hxc : x = c
  · right; rw [if_pos hxc] at hxe; exact hxe.symm
  · left; rw [if_neg hxc] at hxe; rwa [hxe] at hx

theorem not_mem_replaceChar_self {c : Char} (hc : c ≠ '_') (l : List Char) :
    c ∉ replaceChar c l := by
  intro h
  rcases List.mem_map.mp h with ⟨x, _, hxe⟩
  by_cases hxc : x = c
  · rw [if_pos hxc] at hxe; exact hc hxe.symm
  · rw [if_neg hxc] at hxe; exact hxc hxe

theorem not_mem_replaceChar {b c : Char} {l : List Char} (hb : b ∉ l) (hu : b ≠ '_') :
    b ∉ replaceChar c l := by
  intro h
  rcases mem_replaceChar h with h' | h'
  · exact hb h'
  · exact hu h'

theorem not_mem_foldl_replace {b : Char} (hu : b ≠ '_') :
    ∀ (cs : List Char) (l : List Char), b ∉ l →
      b ∉ cs.foldl (fun s c => replaceChar c s) l := by
  intro cs
  induction cs with
  | nil => intro l hb; simpa using hb
  | cons c cs ih =>
    intro l hb
    rw [List.foldl_cons]
    exact ih _ (not_mem_replaceChar hb hu)

theorem not_mem_replaceInvalid {b : Char} (hu : b ≠ '_') :
    ∀ (cs : List Char) (l : List Char), b ∈ cs →
      b ∉ cs.foldl (fun s c => replaceChar c s) l := by
  intro cs
  induction cs with
  | nil => intro l hb; simp at hb
  | cons c cs ih =>
    intro l hb
    rw [List.foldl_cons]
    rcases List.mem_cons.mp hb with hb | hb
    · subst hb
      exact not_mem_foldl_replace hu cs _ (not_mem_replaceChar_self hu l)
    · exact ih _ hb

theorem replaceInvalid_no_invalid {b : Char} (hb : b ∈ invalid_chars) (l : List Char) :
    b ∉ replaceInvalid l := by
  have hu : b ≠ '_' := by
    fin_cases hb <;> decide
  exact not_mem_replaceInvalid hu invalid_chars l hb

theorem mem_stripDotSpace {b : Char} {l : List Char} (h : b ∈ stripDotSpace l) : b ∈ l := by
  unfold stripDotSpace at h
  rw [List.mem_reverse] at h
  have h₁ := (List.dropWhile_sublist isDotSpace).mem h
  rw [List.mem_reverse] at h₁
  exact (List.dropWhile_sublist isDotSpace).mem h₁

theorem head?_dropWhile_false {p : Char → Bool} {l : List Char} {c : Char}
    (h : (l.dropWhile p).head? = some c) : p c = false := by
  induction l with
  | nil => simp [List.dropWhile] at h
  | cons a t ih =>
    rw [List.dropWhile_cons] at h
    by_cases hp : p a = true
    · rw [if_pos hp] at h; exact ih h
    · rw [if_neg hp] at h
      simp at h
      subst h
      simpa using hp

theorem getLast?_stripDotSpace {l : List Char} {c : Char}
    (h : (stripDotSpace l).getLast? = some c) : isDotSpace c = false := by
  unfold stripDotSpace at h
  rw [List.getLast?_reverse] at h
  exact head?_dropWhile_false h

theorem head?_stripDotSpace {l : List Char} {c : Char}
    (h : (stripDotSpace l).head? = some c) : isDotSpace c = false := by
  unfold stripDotSpace at h
  rw [List.head?_reverse] at h
  have hne : (l.dropWhile isDotSpace).reverse.dropWhile isDotSpace ≠ [] := by
    intro he; rw [he] at h; simp at h
  have hlast : ((l.dropWhile isDotSpace).reverse.dropWhile isDotSpace).getLast?
      = (l.dropWhile isDotSpace).reverse.getLast? := by
    rcases List.dropWhile_suffix (l := (l.dropWhile isDotSpace).reverse) isDotSpace with ⟨t, ht⟩
    conv_rhs => rw [← ht]
    rw [List.getLast?_append_of_ne_nil t hne]
  rw [hlast, List.getLast?_reverse] at h
  exact head?_dropWhile_false h

theorem head?_take100 (l : List Char) : (l.take 100).head? = l.head? := by
  cases l <;> rfl

/-- C2 (amended): `sanitize_filename` is total (the empty string maps to
itself), its output contains no forbidden character, has length at most
100 and no leading period or space; and whenever the stripped string is
at most 100 characters long (so the final truncation is the identity) it
also has no trailing period or space. -/
theorem sanitize_filename_spec (s : String) :
    sanitize_filename "" = ""
    ∧ (∀ c, c ∈ (sanitize_filename s).toList → c ∉ invalid_chars)
    ∧ (sanitize_filename s).toList.length ≤ 100
    ∧ (sanitize_filename s).toList.head? ≠ some '.'
    ∧ (sanitize_filename s).toList.head? ≠ some ' '
    ∧ ((stripDotSpace (replaceInvalid s.toList)).length ≤ 100 →
        (sanitize_filename s).toList.getLast? ≠ some '.'
        ∧ (sanitize_filename s).toList.getLast? ≠ some ' ') := by
  have hout : (sanitize_filename s).toList
      = if (stripDotSpace (replaceInvalid s.toList)).length > 100
        then (stripDotSpace (replaceInvalid s.toList)).take 100
        else stripDotSpace (replaceInvalid s.toList) := by
    unfold sanitize_filename
    rfl
  refine ⟨by decide, ?_, ?_, ?_, ?_, ?_⟩
  · intro c hc hcinv
    rw [hout] at hc
    have hc2 : c ∈ stripDotSpace (replaceInvalid s.toList) := by
      by_cases h100 : (stripDotSpace (replaceInvalid s.toList)).length > 100
      · rw [if_pos h100] at hc; exact List.mem_of_mem_take hc
      · rw [if_neg h100] at hc; exact hc
    exact replaceInvalid_no_invalid hcinv _ (mem_stripDotSpace hc2)
  · rw [hout]
    by_cases h100 : (stripDotSpace (replaceInvalid s.toList)).length > 100
    · rw [if_pos h100]; simp [List.length_take]
    · rw [if_neg h100]; omega
  · rw [hout]
    intro h
    have h' : (stripDotSpace (replaceInvalid s.toList)).head? = some '.' := by
      by_cases h100 : (stripDotSpace (replaceInvalid s.toList)).length > 100
      · rw [if_pos h100, head?_take100] at h; exact h
      · rw [if_neg h100] at h; exact h
    exact (by decide : isDotSpace '.' ≠ false) (head?_stripDotSpace h')
  · rw [hout]
    intro h
    have h' : (stripDotSpace (replaceInvalid s.toList)).head? = some ' ' := by
      by_cases h100 : (stripDotSpace (replaceInvalid s.toList)).length > 100
      · rw [if_pos h100, head?_take100] at h; exact h
      · rw [if_neg h100] at h; exact h
    exact (by decide : isDotSpace ' ' ≠ false) (head?_stripDotSpace h')
  · intro h100
    have heq : (sanitize_filename s).toList = stripDotSpace (replaceInvalid s.toList) := by
      rw [hout, if_neg (by omega)]
    constructor
    · rw [heq]; intro h
      exact (by decide : isDotSpace '.' ≠ false) (getLast?_stripDotSpace h)
    · rw [heq]; intro h
      exact (by decide : isDotSpace ' ' ≠ false) (getLast?_stripDotSpace h)

/-- Witness for the amended C2 theorem at the concrete input `"a<b. "`. -/
theorem sanitize_filename_spec_witness :
    (sanitize_filename "a<b. ").toList.getLast? ≠ some '.'
    ∧ (sanitize_filename "a<b. ").toList.getLast? ≠ some ' ' :=
  (sanitize_filename_spec "a<b. ").2.2.2.2.2 (by decide)

/-- The 101-character input on which the original C2 claim fails: 99
letters, a period, a letter.  Stripping removes nothing, truncation cuts
the final letter, and the output ends in a period. -/
def c2_input : String := String.mk (List.replicate 99 'a' ++ ['.', 'b'])

set_option maxHeartbeats 2000000 in
/-- C2 counterexample: `sanitize_filename` can return a string with a
trailing period, because truncation to 100 characters happens after the
strip of leading and trailing periods and spaces. -/
theorem sanitize_filename_trailing_dot :
    (sanitize_filename c2_input).toList.getLast? = some '.' := by decide

/-! ### Lemmas about `download_track` -/

theorem foldl_shift {α β : Type} (f : List α → β → List α)
    (hf : ∀ acc x, f acc x = acc ++ f [] x) :
    ∀ (l : List β) (acc : List α), l.foldl f acc = acc ++ l.foldl f [] := by
  intro l
  induction l with
  | nil => intro acc; simp
  | cons x xs ih =>
    intro acc
    rw [List.foldl_cons, ih (f acc x), List.foldl_cons, ih (f [] x), hf acc x,
      List.append_assoc]

theorem writtenBytes_cons (ch : List Nat) (chunks : List (List Nat)) :
    writtenBytes (ch :: chunks) = (if ch.isEmpty then [] else ch) ++ writtenBytes chunks := by
  have hstep : ∀ (acc x : List Nat),
      (fun (a : List Nat) (c : List Nat) => if c.isEmpty then a else a ++ c) acc x
        = acc ++ (fun (a : List Nat) (c : List Nat) => if c.isEmpty then a else a ++ c) [] x := by
    intro acc x
    by_cases hx : x.isEmpty
    · simp only [if_pos hx, List.append_nil]
    · simp only [if_neg hx, List.nil_append]
  have h := foldl_shift (fun (a : List Nat) (c : List Nat) => if c.isEmpty then a else a ++ c)
    hstep chunks (if ch.isEmpty then [] else [] ++ ch)
  unfold writtenBytes
  rw [List.foldl_cons, h]
  by_cases hch : ch.isEmpty
  · rw [if_pos hch, if_pos hch, List.nil_append]
  · rw [if_neg hch, if_neg hch, List.nil_append]

theorem length_writtenBytes (chunks : List (List Nat)) :
    (writtenBytes chunks).length = (chunks.map List.length).sum := by
  induction chunks with
  | nil => rfl
  | cons ch chunks ih =>
    rw [writtenBytes_cons, List.length_append, ih, List.map_cons, List.sum_cons]
    by_cases hch : ch.isEmpty
    · rw [if_pos hch]
      rw [List.isEmpty_iff] at hch
      subst hch
      rfl
    · rw [if_neg hch]

/-- C1 counterexample: a timeout or connection failure raised inside
`iter_content` after three bytes were written makes `download_track`
return failure while a three-byte file remains at the destination — the
except handlers skip `os.remove` — refuting the claim that every
transport failure leaves no file at the destination path. -/
theorem download_track_partial_file :
    download_track (TransportResult.streamRaises [[1, 2, 3]]) none = (false, some 3) := rfl

/-- C1 (amended): the audio fetch never raises and returns a boolean.
If the request fails before the file is opened it reports failure and
leaves the (initially absent) destination untouched; on a complete
stream smaller than 1024 bytes it deletes the file and reports failure;
on a complete stream of at least 1024 bytes it reports success and
leaves exactly one file of the full stream size; but on a transport
failure raised mid-body it reports failure and leaves the partially
written prefix at the destination. -/
theorem download_track_spec (chunks written : List (List Nat)) (dest : Option Nat) :
    download_track TransportResult.transportFailure none = (false, none)
    ∧ ((chunks.map List.length).sum < 1024 →
        download_track (TransportResult.stream chunks) dest = (false, none))
    ∧ (1024 ≤ (chunks.map List.length).sum →
        download_track (TransportResult.stream chunks) dest
          = (true, some ((chunks.map List.length).sum)))
    ∧ download_track (TransportResult.streamRaises written) dest
        = (false, some ((written.map List.length).sum)) := by
  refine ⟨rfl, ?_, ?_, ?_⟩
  · intro h
    simp only [download_track, length_writtenBytes]
    rw [if_pos (by omega)]
  · intro h
    simp only [download_track, length_writtenBytes]
    rw [if_neg (by omega)]
  · simp only [download_track, length_writtenBytes]

/-- Witness for C1: a complete 1024-byte stream succeeds and leaves a
1024-byte file; a complete 1-byte stream fails and leaves no file. -/
theorem download_track_spec_witness :
    download_track (TransportResult.stream [List.replicate 1024 0]) none = (true, some 1024)
    ∧ download_track (TransportResult.stream [[7]]) none = (false, none) := by
  constructor
  · have h := (download_track_spec [List.replicate 1024 0] [] none).2.2.1
      (by simp only [List.map_cons, List.map_nil, List.length_replicate, List.sum_cons,
        List.sum_nil]; omega)
    simpa only [List.map_cons, List.map_nil, List.length_replicate, List.sum_cons,
      List.sum_nil] using h
  · exact (download_track_spec [[7]] [] none).2.1 (by decide)

/-! ### Lemmas about the orchestrator loop -/

theorem orchestrator_step_shift (env : Env) (dir : String) (dl : Bool) :
    ∀ (acc : List TrackData) (ref : String),
      orchestrator_step env dir dl acc ref = acc ++ orchestrator_step env dir dl [] ref := by
  intro acc ref
  unfold orchestrator_step
  cases hf : env.fetchFull ref with
  | error e => simp
  | ok t =>
    cases hp : process_track env t dir dl with
    | none => simp [hp]
    | some td => simp [hp]

theorem collect_loop_append (env : Env) (dir : String) (dl : Bool)
    (refs : List String) (acc : List TrackData) :
    refs.foldl (orchestrator_step env dir dl) acc = acc ++ collect_loop env dir dl refs :=
  foldl_shift _ (orchestrator_step_shift env dir dl) refs acc

/-- C5: a reference whose full-metadata fetch raises is skipped without
aborting the run; the records of every earlier and every later reference
still make up the final record sequence, in order. -/
theorem collect_loop_skips_failed_fetch (env : Env) (dir : String) (dl : Bool)
    (l₁ l₂ : List String) (r : String) (h : env.fetchFull r = Except.error ()) :
    collect_loop env dir dl (l₁ ++ r :: l₂)
      = collect_loop env dir dl l₁ ++ collect_loop env dir dl l₂ := by
  unfold collect_loop
  rw [List.foldl_append, List.foldl_cons]
  have hstep : orchestrator_step env dir dl (List.foldl (orchestrator_step env dir dl) [] l₁) r
      = List.foldl (orchestrator_step env dir dl) [] l₁ := by
    unfold orchestrator_step
    rw [h]
  rw [hstep]
  exact collect_loop_append env dir dl l₂ _

/-- An environment in which every full-metadata fetch raises. -/
def env_fetch_raises : Env :=
  { download_info := fun _ => Except.ok []
    fetch := fun _ _ => true
    fetchFull := fun _ => Except.error () }

/-- Witness for C5 at a concrete three-reference enumeration whose middle
reference fails to fetch. -/
theorem collect_loop_skips_failed_fetch_witness :
    collect_loop env_fetch_raises "audio" true (["a"] ++ "bad" :: ["b"])
      = collect_loop env_fetch_raises "audio" true ["a"]
        ++ collect_loop env_fetch_raises "audio" true ["b"] :=
  collect_loop_skips_failed_fetch env_fetch_raises "audio" true ["a"] ["b"] "bad" rfl

/-- C3: with downloads enabled and the remote availability flag true, a
failed URL resolution or a failed fetch downgrades `available` to
`false`, and the record is still produced and appended to the
accumulation sequence by the orchestrator step. -/
theorem process_track_downgrades_available (env : Env) (t : Track) (dir : String)
    (havail : (base_record t).available = true)
    (hfail : get_download_url (env.download_info t) = none
      ∨ ∃ url, get_download_url (env.download_info t) = some url
          ∧ env.fetch url (track_audio_path dir (base_record t).id) = false) :
    process_track env t dir true = some { base_record t with available := false }
    ∧ ∀ (acc : List TrackData) (ref : String), env.fetchFull ref = Except.ok t →
        orchestrator_step env dir true acc ref
          = acc ++ [{ base_record t with available := false }] := by
  have hmain : process_track env t dir true = some { base_record t with available := false } := by
    unfold process_track
    simp only [Bool.true_and, havail, if_true]
    rcases hfail with hnone | ⟨url, hurl, hfetch⟩
    · rw [hnone]
    · rw [hurl]
      simp [hfetch]
  refine ⟨hmain, ?_⟩
  intro acc ref href
  simp only [orchestrator_step, href, hmain]

/-- A track reported available remotely, in an environment whose media
resolver raises a domain error. -/
def track_avail : Track :=
  { id := "1", title := "T", artists := [], albums := [],
    cover_uri := none, duration_ms := none, available := some true }

/-- An environment whose media resolution raises the domain error and
whose full-track fetch succeeds with `track_avail`. -/
def env_resolve_raises : Env :=
  { download_info := fun _ => Except.error ResolveError.yandexMusicError
    fetch := fun _ _ => true
    fetchFull := fun _ => Except.ok track_avail }

/-- Witness for C3: the concrete available track whose resolution fails
is returned with `available = false` and appended by the orchestrator. -/
theorem process_track_downgrades_available_witness :
    process_track env_resolve_raises track_avail "audio" true
      = some { base_record track_avail with available := false }
    ∧ orchestrator_step env_resolve_raises "audio" true [] "1"
      = [] ++ [{ base_record track_avail with available := false }] :=
  ⟨(process_track_downgrades_available env_resolve_raises track_avail "audio" rfl (Or.inl rfl)).1,
   (process_track_downgrades_available env_resolve_raises track_avail "audio" rfl
      (Or.inl rfl)).2 [] "1" rfl⟩

/-! ### Lemmas about `get_download_url` -/

theorem pickBetter_some (b i : DownloadInfo) :
    pickBetter (some b) i
      = if i.codec = "mp3" ∧ i.bitrate_in_kbps > b.bitrate_in_kbps then some i else some b := by
  simp only [pickBetter]
  by_cases hc : i.codec = "mp3"
  · simp only [if_pos hc]
    by_cases hb : i.bitrate_in_kbps > b.bitrate_in_kbps
    · simp [hb, hc]
    · simp [hb, hc]
  · simp [hc]

theorem pickBetter_none (i : DownloadInfo) :
    pickBetter none i = if i.codec = "mp3" then some i else none := by
  by_cases hc : i.codec = "mp3" <;> simp [pickBetter, hc]

theorem foldl_pickBetter_ne_none :
    ∀ (l : List DownloadInfo) (b : DownloadInfo), l.foldl pickBetter (some b) ≠ none := by
  intro l
  induction l with
  | nil => intro b h; simp at h
  | cons i l ih =>
    intro b
    rw [List.foldl_cons, pickBetter_some]
    by_cases h : i.codec = "mp3" ∧ i.bitrate_in_kbps > b.bitrate_in_kbps
    · rw [if_pos h]; exact ih i
    · rw [if_neg h]; exact ih b

theorem bestMp3_eq_none_iff (l : List DownloadInfo) :
    bestMp3 l = none ↔ ∀ c ∈ l, c.codec ≠ "mp3" := by
  unfold bestMp3
  induction l with
  | nil => simp
  | cons i l ih =>
    rw [List.foldl_cons, pickBetter_none]
    by_cases hc : i.codec = "mp3"
    · rw [if_pos hc]
      constructor
      · intro h; exact absurd h (foldl_pickBetter_ne_none l i)
      · intro h; exact absurd hc (h i (by simp))
    · rw [if_neg hc, ih]
      constructor
      · intro h c hcmem
        rcases List.mem_cons.mp hcmem with rfl | hm
        · exact hc
        · exact h c hm
      · intro h c hm
        exact h c (List.mem_cons_of_mem i hm)

theorem foldl_pickBetter_some_spec :
    ∀ (l : List DownloadInfo) (b b' : DownloadInfo),
      l.foldl pickBetter (some b) = some b' →
      (b' = b ∧ ∀ c ∈ l, c.codec = "mp3" → c.bitrate_in_kbps ≤ b.bitrate_in_kbps)
      ∨ (b'.codec = "mp3" ∧ b.bitrate_in_kbps < b'.bitrate_in_kbps
         ∧ ∃ l₁ l₂, l = l₁ ++ b' :: l₂
           ∧ (∀ c ∈ l₁, c.codec = "mp3" → c.bitrate_in_kbps < b'.bitrate_in_kbps)
           ∧ (∀ c ∈ l₂, c.codec = "mp3" → c.bitrate_in_kbps ≤ b'.bitrate_in_kbps)) := by
  intro l
  induction l with
  | nil =>
    intro b b' h
    simp at h
    left
    refine ⟨h.symm, by simp⟩
  | cons i l ih =>
    intro b b' h
    rw [List.foldl_cons, pickBetter_some] at h
    by_cases hcase : i.codec = "mp3" ∧ i.bitrate_in_kbps > b.bitrate_in_kbps
    · rw [if_pos hcase] at h
      rcases ih i b' h with ⟨rfl, hall⟩ | ⟨hbc, hgt, l₁, l₂, rfl, h₁, h₂⟩
      · right
        exact ⟨hcase.1, hcase.2, [], l, rfl, by simp, hall⟩
      · right
        refine ⟨hbc, lt_trans hcase.2 hgt, i :: l₁, l₂, rfl, ?_, h₂⟩
        intro c hcm hcodec
        rcases List.mem_cons.mp hcm with rfl | hm
        · exact hgt
        · exact h₁ c hm hcodec
    · rw [if_neg hcase] at h
      push_neg at hcase
      rcases ih b b' h with ⟨rfl, hall⟩ | ⟨hbc, hgt, l₁, l₂, rfl, h₁, h₂⟩
      · left
        refine ⟨rfl, ?_⟩
        intro c hcm hcodec
        rcases List.mem_cons.mp hcm with rfl | hm
        · exact hcase hcodec
        · exact hall c hm hcodec
      · right
        refine ⟨hbc, hgt, i :: l₁, l₂, rfl, ?_, h₂⟩
        intro c hcm hcodec
        rcases List.mem_cons.mp hcm with rfl | hm
        · exact lt_of_le_of_lt (hcase hcodec) hgt
        · exact h₁ c hm hcodec

theorem bestMp3_some_spec :
    ∀ (l : List DownloadInfo) (b : DownloadInfo),
      bestMp3 l = some b →
      b.codec = "mp3"
      ∧ ∃ l₁ l₂, l = l₁ ++ b :: l₂
        ∧ (∀ c ∈ l₁, c.codec = "mp3" → c.bitrate_in_kbps < b.bitrate_in_kbps)
        ∧ (∀ c ∈ l₂, c.codec = "mp3" → c.bitrate_in_kbps ≤ b.bitrate_in_kbps) := by
  intro l
  induction l with
  | nil => intro b h; simp [bestMp3] at h
  | cons i l ih =>
    intro b h
    unfold bestMp3 at h
    rw [List.foldl_cons, pickBetter_none] at h
    by_cases hc : i.codec = "mp3"
    · rw [if_pos hc] at h
      rcases foldl_pickBetter_some_spec l i b h with ⟨rfl, hall⟩ | ⟨hbc, hgt, l₁, l₂, rfl, h₁, h₂⟩
      · exact ⟨hc, [], l, rfl, by simp, hall⟩
      · refine ⟨hbc, i :: l₁, l₂, rfl, ?_, h₂⟩
        intro c hcm hcodec
        rcases List.mem_cons.mp hcm with rfl | hm
        · exact hgt
        · exact h₁ c hm hcodec
    · rw [if_neg hc] at h
      rcases ih b h with ⟨hbc, l₁, l₂, rfl, h₁, h₂⟩
      refine ⟨hbc, i :: l₁, l₂, rfl, ?_, h₂⟩
      intro c hcm hcodec
      rcases List.mem_cons.mp hcm with rfl | hm
      · exact absurd hcodec hc
      · exact h₁ c hm hcodec

theorem bestMp3_max {infos : List DownloadInfo} {b : DownloadInfo}
    (hb : bestMp3 infos = some b) :
    ∀ c ∈ infos, c.codec = "mp3" → c.bitrate_in_kbps ≤ b.bitrate_in_kbps := by
  obtain ⟨_, l₁, l₂, heq, h₁, h₂⟩ := bestMp3_some_spec infos b hb
  intro c hcm hcodec
  rw [heq] at hcm
  rcases List.mem_append.mp hcm with hm | hm
  · exact le_of_lt (h₁ c hm hcodec)
  · rcases List.mem_cons.mp hm with rfl | hm
    · exact le_refl _
    · exact h₂ c hm hcodec

/-- C4: resolution never propagates a resolver error (it yields no URL),
yields no URL when no mp3 candidate exists, and otherwise returns the
direct link of an mp3 candidate whose bitrate is maximal among all mp3
candidates; on the concrete candidates mp3/320, mp3/128, aac/256 it
selects the mp3/320 link. -/
theorem get_download_url_spec (e : ResolveError) (infos : List DownloadInfo) :
    get_download_url (Except.error e) = none
    ∧ ((∀ c ∈ infos, c.codec ≠ "mp3") → get_download_url (Except.ok infos) = none)
    ∧ (∀ b, bestMp3 infos = some b →
        b.codec = "mp3" ∧ b ∈ infos
        ∧ (∀ c ∈ infos, c.codec = "mp3" → c.bitrate_in_kbps ≤ b.bitrate_in_kbps)
        ∧ get_download_url (Except.ok infos) = some b.direct_link)
    ∧ get_download_url (Except.ok
        [⟨"mp3", 320, "u320"⟩, ⟨"mp3", 128, "u128"⟩, ⟨"aac", 256, "u256"⟩]) = some "u320" := by
  refine ⟨rfl, ?_, ?_, by decide⟩
  · intro h
    simp only [get_download_url]
    rw [(bestMp3_eq_none_iff infos).mpr h]
    rfl
  · intro b hb
    obtain ⟨hbc, l₁, l₂, heq, h₁, h₂⟩ := bestMp3_some_spec infos b hb
    refine ⟨hbc, ?_, bestMp3_max hb, ?_⟩
    · rw [heq]
      exact List.mem_append_right _ (List.mem_cons_self _ _)
    · simp only [get_download_url]
      rw [hb]
      rfl

/-- Witness for C4 at the concrete candidate list of the claim. -/
theorem get_download_url_spec_witness :
    get_download_url (Except.ok
        [⟨"mp3", 320, "u320"⟩, ⟨"mp3", 128, "u128"⟩, ⟨"aac", 256, "u256"⟩])
      = some (DownloadInfo.mk "mp3" 320 "u320").direct_link :=
  ((get_download_url_spec ResolveError.yandexMusicError
      [⟨"mp3", 320, "u320"⟩, ⟨"mp3", 128, "u128"⟩, ⟨"aac", 256, "u256"⟩]).2.2.1
    ⟨"mp3", 320, "u320"⟩ (by decide)).2.2.2

/-- A candidate is "best" for a candidate list when it is an mp3 whose
bitrate is at least that of every mp3 candidate of the list. -/
def is_best_candidate (infos : List DownloadInfo) (c : DownloadInfo) : Bool :=
  (c.codec == "mp3")
    && infos.all (fun d => !(d.codec == "mp3") || d.bitrate_in_kbps ≤ c.bitrate_in_kbps)

/-- C10: the selected candidate is always the first maximal-bitrate mp3
candidate of the list, because the replacement comparison is strict; in
particular two equal-bitrate mp3 candidates resolve to the earlier one. -/
theorem bestMp3_first_maximal (infos : List DownloadInfo) :
    bestMp3 infos = infos.find? (is_best_candidate infos)
    ∧ get_download_url (Except.ok
        [⟨"mp3", 320, "first"⟩, ⟨"mp3", 320, "second"⟩]) = some "first" := by
  refine ⟨?_, by decide⟩
  cases hb : bestMp3 infos with
  | none =>
    have hnone := (bestMp3_eq_none_iff infos).mp hb
    symm
    rw [List.find?_eq_none]
    intro c hcm hpred
    unfold is_best_candidate at hpred
    rw [Bool.and_eq_true] at hpred
    have hc : c.codec = "mp3" := by
      have h1 := hpred.1
      rwa [beq_iff_eq] at h1
    exact hnone c hcm hc
  | some b =>
    obtain ⟨hbc, l₁, l₂, heq, h₁, h₂⟩ := bestMp3_some_spec infos b hb
    have hglobal := bestMp3_max hb
    have hpredb : is_best_candidate infos b = true := by
      unfold is_best_candidate
      rw [Bool.and_eq_true]
      constructor
      · rwa [beq_iff_eq]
      · rw [List.all_eq_true]
        intro d hd
        by_cases hdc : d.codec = "mp3"
        · rw [Bool.or_eq_true]
          right
          rw [decide_eq_true_eq]
          exact hglobal d hd hdc
        · rw [Bool.or_eq_true]
          left
          rw [Bool.not_eq_true', beq_eq_false_iff_ne]
          exact hdc
    have hpredl₁ : ∀ c ∈ l₁, is_best_candidate infos c = false := by
      intro c hcm
      by_cases hcc : c.codec = "mp3"
      · unfold is_best_candidate
        rw [Bool.and_eq_false_iff]
        right
        rw [List.all_eq_false]
        refine ⟨b, ?_, ?_⟩
        · rw [heq]
          exact List.mem_append_right _ (List.mem_cons_self _ _)
        · have hlt := h₁ c hcm hcc
          rw [Bool.not_eq_true, Bool.or_eq_false_iff]
          constructor
          · simp [hbc]
          · rw [decide_eq_false_iff_not]
            omega
      · unfold is_best_candidate
        rw [Bool.and_eq_false_iff]
        left
        rwa [beq_eq_false_iff_ne]
    symm
    nth_rewrite 2 [heq]
    have hfind : ∀ (front : List DownloadInfo),
        (∀ c ∈ front, is_best_candidate infos c = false) →
        (front ++ b :: l₂).find? (is_best_candidate infos) = some b := by
      intro front
      induction front with
      | nil =>
        intro _
        rw [List.nil_append]
        exact List.find?_cons_of_pos _ hpredb
      | cons x xs ihx =>
        intro hall
        rw [List.cons_append, List.find?_cons_of_neg]
        · exact ihx (fun c hc => hall c (List.mem_cons_of_mem x hc))
        · rw [hall x (List.mem_cons_self x xs)]
          simp
    exact hfind l₁ hpredl₁

/-! ### Lemmas about `get_cover_url` -/

/-- Sequence prefix test used to state URL-shape properties. -/
def startsWithSeq : List Char → List Char → Bool
  | [], _ => true
  | _ :: _, [] => false
  | p :: ps, c :: cs => p == c && startsWithSeq ps cs

/-- Substring occurrence test used to state URL-shape properties. -/
def containsSeq (pat : List Char) : List Char → Bool
  | [] => startsWithSeq pat []
  | c :: cs => startsWithSeq pat (c :: cs) || containsSeq pat cs

/-- Occurrence test for the substring `"%%"`. -/
def hasDoublePct : List Char → Bool
  | [] => false
  | [_] => false
  | c₁ :: c₂ :: rest => (c₁ == '%' && c₂ == '%') || hasDoublePct (c₂ :: rest)

theorem startsWithSeq_self_append (p l : List Char) : startsWithSeq p (p ++ l) = true := by
  induction p with
  | nil => rfl
  | cons a ps ih => simp [startsWithSeq, ih]

theorem containsSeq_cons (pat : List Char) (c : Char) (l : List Char)
    (h : containsSeq pat l = true) : containsSeq pat (c :: l) = true := by
  show (startsWithSeq pat (c :: l) || containsSeq pat l) = true
  rw [h, Bool.or_true]

theorem containsSeq_append (pat xs l : List Char) (h : containsSeq pat l = true) :
    containsSeq pat (xs ++ l) = true := by
  induction xs with
  | nil => simpa using h
  | cons x xs ih =>
    rw [List.cons_append]
    exact containsSeq_cons pat x _ ih

theorem containsSeq_self_append (pat l : List Char) (hne : pat ≠ []) :
    containsSeq pat (pat ++ l) = true := by
  cases pat with
  | nil => exact absurd rfl hne
  | cons p ps =>
    rw [List.cons_append]
    show (startsWithSeq (p :: ps) (p :: (ps ++ l)) || containsSeq (p :: ps) (ps ++ l)) = true
    rw [← List.cons_append, startsWithSeq_self_append, Bool.true_or]

theorem hasDoublePct_cons (x : Char) (l : List Char) (hx : x ≠ '%') :
    hasDoublePct (x :: l) = hasDoublePct l := by
  cases l with
  | nil => rfl
  | cons y ys =>
    show ((x == '%' && y == '%') || hasDoublePct (y :: ys)) = hasDoublePct (y :: ys)
    have hxb : (x == '%') = false := by rwa [beq_eq_false_iff_ne]
    rw [hxb, Bool.false_and, Bool.false_or]

theorem hasDoublePct_safe_append (xs l : List Char)
    (hxs : ∀ c ∈ xs, c ≠ '%') (hl : hasDoublePct l = false) :
    hasDoublePct (xs ++ l) = false := by
  induction xs with
  | nil => simpa using hl
  | cons x xs ih =>
    rw [List.cons_append, hasDoublePct_cons x _ (hxs x (by simp))]
    exact ih (fun c hc => hxs c (by simp [hc]))

theorem head?_replaceDoublePct (c : Char) (l : List Char) (hc : c ≠ '%') :
    (replaceDoublePct (c :: l)).head? = some c := by
  cases l with
  | nil => rfl
  | cons y ys =>
    unfold replaceDoublePct
    rw [if_neg (fun h => hc h.1)]
    rfl

theorem replaceDoublePct_spec_aux :
    ∀ (n : Nat) (l : List Char), l.length ≤ n →
      hasDoublePct (replaceDoublePct l) = false
      ∧ (hasDoublePct l = true →
          containsSeq ("400x400".toList) (replaceDoublePct l) = true) := by
  intro n
  induction n with
  | zero =>
    intro l hl
    have hnil : l = [] := List.eq_nil_of_length_eq_zero (Nat.le_zero.mp hl)
    subst hnil
    exact ⟨rfl, fun h => by simp [hasDoublePct] at h⟩
  | succ n ih =>
    intro l hl
    match l with
    | [] => exact ⟨rfl, fun h => by simp [hasDoublePct] at h⟩
    | [c] => exact ⟨rfl, fun h => by simp [hasDoublePct] at h⟩
    | c₁ :: c₂ :: rest =>
      have hlen : rest.length + 2 ≤ n + 1 := by simpa using hl
      have hrest : rest.length ≤ n := by omega
      have hrest2 : (c₂ :: rest).length ≤ n := by simp; omega
      by_cases hpp : c₁ = '%' ∧ c₂ = '%'
      · have hrepl : replaceDoublePct (c₁ :: c₂ :: rest)
            = "400x400".toList ++ replaceDoublePct rest := by
          simp only [replaceDoublePct]
          rw [if_pos hpp]
        obtain ⟨ihnd, _⟩ := ih rest hrest
        constructor
        · rw [hrepl]
          exact hasDoublePct_safe_append _ _ (by decide) ihnd
        · intro _
          rw [hrepl]
          exact containsSeq_self_append _ _ (by decide)
      · have hrepl : replaceDoublePct (c₁ :: c₂ :: rest)
            = c₁ :: replaceDoublePct (c₂ :: rest) := by
          simp only [replaceDoublePct]
          rw [if_neg hpp]
        obtain ⟨ihnd, ihct⟩ := ih (c₂ :: rest) hrest2
        constructor
        · rw [hrepl]
          by_cases hc₁ : c₁ = '%'
          · have hc₂ : c₂ ≠ '%' := fun h2 => hpp ⟨hc₁, h2⟩
            cases hX : replaceDoublePct (c₂ :: rest) with
            | nil => rfl
            | cons d ds =>
              have hd : d = c₂ := by
                have hh := head?_replaceDoublePct c₂ rest hc₂
                rw [hX] at hh
                simpa using hh
              show ((c₁ == '%' && d == '%') || hasDoublePct (d :: ds)) = false
              rw [Bool.or_eq_false_iff]
              constructor
              · rw [Bool.and_eq_false_iff]
                right
                rw [beq_eq_false_iff_ne, hd]
                exact hc₂
              · rw [← hX]
                exact ihnd
          · rw [hasDoublePct_cons c₁ _ hc₁]
            exact ihnd
        · intro hl2
          have htail : hasDoublePct (c₂ :: rest) = true := by
            have heq2 : hasDoublePct (c₁ :: c₂ :: rest)
                = ((c₁ == '%' && c₂ == '%') || hasDoublePct (c₂ :: rest)) := rfl
            rw [heq2, Bool.or_eq_true] at hl2
            rcases hl2 with hpair | htail
            · exfalso
              rw [Bool.and_eq_true, beq_iff_eq, beq_iff_eq] at hpair
              exact hpp hpair
            · exact htail
          rw [hrepl]
          exact containsSeq_cons _ _ _ (ihct htail)

theorem replaceDoublePct_no_double (l : List Char) :
    hasDoublePct (replaceDoublePct l) = false :=
  (replaceDoublePct_spec_aux l.length l (le_refl _)).1

theorem replaceDoublePct_contains (l : List Char) (h : hasDoublePct l = true) :
    containsSeq ("400x400".toList) (replaceDoublePct l) = true :=
  (replaceDoublePct_spec_aux l.length l (le_refl _)).2 h

theorem toList_cover_url_of_ref (u : String) :
    (cover_url_of_ref u).toList = "https://".toList ++ replaceDoublePct u.toList := rfl

theorem cover_url_of_ref_starts (u : String) :
    startsWithSeq ("https://".toList) ((cover_url_of_ref u).toList) = true := by
  rw [toList_cover_url_of_ref]
  exact startsWithSeq_self_append _ _

theorem cover_url_of_ref_no_double (u : String) :
    hasDoublePct ((cover_url_of_ref u).toList) = false := by
  rw [toList_cover_url_of_ref]
  exact hasDoublePct_safe_append _ _ (by decide) (replaceDoublePct_no_double _)

theorem cover_url_of_ref_contains (u : String) (h : hasDoublePct u.toList = true) :
    containsSeq ("400x400".toList) ((cover_url_of_ref u).toList) = true := by
  rw [toList_cover_url_of_ref]
  exact containsSeq_append _ _ _ (replaceDoublePct_contains _ h)

theorem album_cover_url_cases (t : Track) (r : String)
    (h : album_cover_url t = some r) : ∃ u, r = cover_url_of_ref u := by
  unfold album_cover_url at h
  cases hta : t.albums with
  | nil => rw [hta] at h; exact Option.noConfusion h
  | cons al rest =>
    rw [hta] at h
    have h2 : (match al.cover_uri with
        | some u => if u = "" then none else some (cover_url_of_ref u)
        | none => none) = some r := h
    cases hac : al.cover_uri with
    | none => rw [hac] at h2; exact Option.noConfusion h2
    | some u =>
      rw [hac] at h2
      have h3 : (if u = "" then none else some (cover_url_of_ref u)) = some r := h2
      by_cases hu : u = ""
      · rw [if_pos hu] at h3; exact Option.noConfusion h3
      · rw [if_neg hu] at h3
        simp at h3
        exact ⟨u, h3.symm⟩

theorem get_cover_url_cases (t : Track) (r : String)
    (h : get_cover_url t = some r) : ∃ u, r = cover_url_of_ref u := by
  unfold get_cover_url at h
  cases htc : t.cover_uri with
  | none =>
    rw [htc] at h
    exact album_cover_url_cases t r h
  | some u =>
    rw [htc] at h
    have h2 : (if u = "" then album_cover_url t else some (cover_url_of_ref u)) = some r := h
    by_cases hu : u = ""
    · rw [if_pos hu] at h2
      exact album_cover_url_cases t r h2
    · rw [if_neg hu] at h2
      simp at h2
      exact ⟨u, h2.symm⟩

/-- C6: cover resolution returns the track-level reference if truthy,
else the first album's reference if truthy, else none; every returned
URL begins with `https://` and contains no `%%`, and whenever the chosen
reference contains `%%` the built URL contains `400x400`. -/
theorem get_cover_url_spec (t : Track) (r u : String) :
    (get_cover_url t = some r →
      startsWithSeq ("https://".toList) r.toList = true
      ∧ hasDoublePct r.toList = false)
    ∧ (t.cover_uri = some u → u ≠ "" → get_cover_url t = some (cover_url_of_ref u))
    ∧ (hasDoublePct u.toList = true →
        containsSeq ("400x400".toList) ((cover_url_of_ref u).toList) = true)
    ∧ ((t.cover_uri = none ∨ t.cover_uri = some "") → get_cover_url t = album_cover_url t)
    ∧ ((t.cover_uri = none ∨ t.cover_uri = some "") → t.albums = [] →
        get_cover_url t = none) := by
  have halbum : ∀ ht : t.cover_uri = none ∨ t.cover_uri = some "",
      get_cover_url t = album_cover_url t := by
    intro ht
    unfold get_cover_url
    rcases ht with h0 | h0
    · rw [h0]
    · rw [h0]
      have hred : (match (some "" : Option String) with
          | some u => if u = "" then album_cover_url t else some (cover_url_of_ref u)
          | none => album_cover_url t) = if "" = "" then album_cover_url t
            else some (cover_url_of_ref "") := rfl
      rw [hred, if_pos rfl]
  refine ⟨?_, ?_, cover_url_of_ref_contains u, halbum, ?_⟩
  · intro h
    obtain ⟨u', rfl⟩ := get_cover_url_cases t r h
    exact ⟨cover_url_of_ref_starts u', cover_url_of_ref_no_double u'⟩
  · intro htc hu
    unfold get_cover_url
    rw [htc]
    have hred : (match (some u : Option String) with
        | some v => if v = "" then album_cover_url t else some (cover_url_of_ref v)
        | none => album_cover_url t) = if u = "" then album_cover_url t
          else some (cover_url_of_ref u) := rfl
    rw [hred, if_neg hu]
  · intro ht halb
    rw [halbum ht]
    unfold album_cover_url
    rw [halb]

/-- A concrete track whose cover reference contains the `%%` template. -/
def track_cover : Track :=
  { id := "2", title := "U", artists := [], albums := [],
    cover_uri := some "ab%%cd", duration_ms := none, available := none }

/-- Witness for C6: the URL built from the reference `"ab%%cd"` starts
with `https://` and contains no `%%`. -/
theorem get_cover_url_spec_witness :
    startsWithSeq ("https://".toList) ((cover_url_of_ref "ab%%cd").toList) = true
    ∧ hasDoublePct ((cover_url_of_ref "ab%%cd").toList) = false :=
  (get_cover_url_spec track_cover (cover_url_of_ref "ab%%cd") "ab%%cd").1
    ((get_cover_url_spec track_cover (cover_url_of_ref "ab%%cd") "ab%%cd").2.1 rfl
      (by decide))

/-! ### Lemmas about `extract_genre` -/

/-- The first artist carries no truthy genre list (absent attribute,
`None`, or empty list). -/
def artist_genre_missing (t : Track) : Bool :=
  match t.artists with
  | [] => true
  | a :: _ =>
    match a.genres with
    | none => true
    | some [] => true
    | some (_ :: _) => false

/-- The first album carries no truthy genre field (absent attribute,
`None`, or empty string). -/
def album_genre_missing (t : Track) : Bool :=
  match t.albums with
  | [] => true
  | al :: _ =>
    match al.genre with
    | none => true
    | some g => g == ""

theorem extract_genre_album_fall (t : Track) (h : artist_genre_missing t = true) :
    extract_genre t = album_genre_fallback t := by
  unfold extract_genre
  unfold artist_genre_missing at h
  cases hta : t.artists with
  | nil => rfl
  | cons a rest =>
    rw [hta] at h
    have h2 : (match a.genres with
        | none => true
        | some [] => true
        | some (_ :: _) => false) = true := h
    show (match a.genres with
        | some (g :: _) => g
        | some [] => album_genre_fallback t
        | none => album_genre_fallback t) = album_genre_fallback t
    cases hg : a.genres with
    | none => rfl
    | some gs =>
      rw [hg] at h2
      cases gs with
      | nil => rfl
      | cons g gs => exact Bool.noConfusion h2

theorem album_genre_fallback_unknown (t : Track) (h : album_genre_missing t = true) :
    album_genre_fallback t = "unknown" := by
  unfold album_genre_fallback
  unfold album_genre_missing at h
  cases htal : t.albums with
  | nil => rfl
  | cons al rest =>
    rw [htal] at h
    have h2 : (match al.genre with
        | none => true
        | some g => g == "") = true := h
    show (match al.genre with
        | some g => if g = "" then "unknown" else g
        | none => "unknown") = "unknown"
    cases hg : al.genre with
    | none => rfl
    | some g =>
      rw [hg] at h2
      have hge : g = "" := by
        have h3 : (g == "") = true := h2
        rwa [beq_iff_eq] at h3
      show (if g = "" then "unknown" else g) = "unknown"
      rw [if_pos hge]

/-- C7: genre resolution returns the first artist's first genre tag when
present, else the first album's truthy genre field, else the literal
`"unknown"`, which is in particular the result whenever both sources are
missing. -/
theorem extract_genre_spec (t : Track) :
    (∀ a rest g gs, t.artists = a :: rest → a.genres = some (g :: gs) →
        extract_genre t = g)
    ∧ (artist_genre_missing t = true →
        ∀ al rest g, t.albums = al :: rest → al.genre = some g → g ≠ "" →
          extract_genre t = g)
    ∧ (artist_genre_missing t = true → album_genre_missing t = true →
        extract_genre t = "unknown") := by
  refine ⟨?_, ?_, ?_⟩
  · intro a rest g gs hta hg
    unfold extract_genre
    rw [hta]
    show (match a.genres with
        | some (g :: _) => g
        | some [] => album_genre_fallback t
        | none => album_genre_fallback t) = g
    rw [hg]
  · intro hmissing al rest g htal hg hgne
    rw [extract_genre_album_fall t hmissing]
    unfold album_genre_fallback
    rw [htal]
    show (match al.genre with
        | some g => if g = "" then "unknown" else g
        | none => "unknown") = g
    rw [hg]
    show (if g = "" then "unknown" else g) = g
    rw [if_neg hgne]
  · intro h1 h2
    rw [extract_genre_album_fall t h1, album_genre_fallback_unknown t h2]

/-- Witness for C7: the concrete track with no artists and no albums
resolves to the genre `"unknown"`. -/
theorem extract_genre_spec_witness : extract_genre track_avail = "unknown" :=
  (extract_genre_spec track_avail).2.2 rfl rfl

/-! ### The audio destination path -/

/-- C9: the audio destination is exactly the track identifier with
`.mp3` appended, directly under the audio directory; the sanitizer is
never applied to it (forbidden characters in the identifier survive and
the sanitized name would differ), and `process_track` consults the fetch
collaborator only at this destination path. -/
theorem audio_path_unsanitized (dir td_id : String) :
    track_audio_path dir td_id = dir ++ "/" ++ (td_id ++ ".mp3")
    ∧ audio_filename "track<1" = "track<1.mp3"
    ∧ '<' ∈ (audio_filename "track<1").toList
    ∧ sanitize_filename (audio_filename "track<1") ≠ audio_filename "track<1"
    ∧ (∀ (env env' : Env) (t : Track),
        env.download_info t = env'.download_info t →
        (∀ u, env.fetch u (track_audio_path dir (base_record t).id)
          = env'.fetch u (track_audio_path dir (base_record t).id)) →
        process_track env t dir true = process_track env' t dir true) := by
  refine ⟨rfl, rfl, by decide, by decide, ?_⟩
  intro env env' t hdi hf
  simp only [process_track]
  rw [hdi]
  by_cases ha : (true && (base_record t).available) = true
  · rw [if_pos ha, if_pos ha]
    cases hres : get_download_url (env'.download_info t) with
    | none => rfl
    | some url => simp [hf url]
  · rw [if_neg ha, if_neg ha]

/-- A second environment, agreeing with `env_resolve_raises` at the
audio destination path but not elsewhere. -/
def env_resolve_raises2 : Env :=
  { download_info := fun _ => Except.error ResolveError.yandexMusicError
    fetch := fun _ p => !(p == "other")
    fetchFull := fun _ => Except.ok track_avail }

/-- Witness for C9: the two environments agree at the destination path,
so `process_track` cannot tell them apart. -/
theorem audio_path_unsanitized_witness :
    process_track env_resolve_raises track_avail "audio" true
      = process_track env_resolve_raises2 track_avail "audio" true :=
  (audio_path_unsanitized "audio" "1").2.2.2.2 env_resolve_raises env_resolve_raises2
    track_avail rfl (fun _ => rfl)
